import Mathlib

/-!
Verification of the embedding bridge of `rjsonnet` (src/lib.rs): a shallow
embedding in Lean of the value marshaler (`pyobject_to_val`,
`val_to_pyobject`), the import-resolver adapter (`PythonImportResolver`),
and the evaluation-session construction and drive
(`VirtualMachine::new`, `VirtualMachine::evaluate_file`).

Conventions of the embedding:
* Python host values are the inductive `PyVal`.  A Python `float` carries its
  exact rational value (every finite IEEE double is a rational); NaN and the
  infinities are outside the embedded domain.  Dictionary keys are embedded as
  strings: a non-string key makes `k.extract::<String>()` fail in the source,
  and no claim exercises that branch, so the embedded domain restricts keys
  to strings.
* Engine values (`jrsonnet` `Val`) are the inductive `EVal`.  A number again
  carries its exact rational value; the conversion `u64 as f64` performed by
  the source is embedded as the round-to-nearest-even function `u64ToF64`.
  Lazily-resolved array elements and object members are embedded by the
  result of forcing them: `Except String EVal`, where `.error e` means
  forcing fails with evaluator error `e`.
* A Rust panic (the `unwrap` on a failed array element, the
  `unimplemented!()` on `Val::Func`) is embedded as the `Except` error branch
  of `HostConvErr`: the conversion produces no (partial) result and the
  failure is visible to the host (pyo3 turns panics into exceptions).
-/

/-- Python host values (the domain of `pyobject_to_val`, the codomain of
`val_to_pyobject`). -/
inductive PyVal where
  | none : PyVal
  | bool (b : Bool) : PyVal
  | int (n : Int) : PyVal
  | float (q : ℚ) : PyVal
  | str (s : String) : PyVal
  | list (xs : List PyVal) : PyVal
  | tuple (xs : List PyVal) : PyVal
  | dict (entries : List (String × PyVal)) : PyVal

/-- Engine values (`jrsonnet` `Val`).  An object field is
`(name, hidden, forced value)`: the source's `extend_field(k).value(v)`
creates a normal-visibility (`hidden = false`) concrete member. -/
inductive EVal where
  | null : EVal
  | bool (b : Bool) : EVal
  | num (q : ℚ) : EVal
  | str (s : String) : EVal
  | arr (elems : List (Except String EVal)) : EVal
  | obj (fields : List (String × Bool × Except String EVal)) : EVal
  | func : EVal

/-- Round `n` to the nearest multiple of `ulp`, ties to the even multiple. -/
def roundEvenMul (ulp n : Nat) : Nat :=
  let q := n / ulp
  let r := n % ulp
  if 2 * r < ulp then q * ulp
  else if ulp < 2 * r then (q + 1) * ulp
  else if q % 2 = 0 then q * ulp else (q + 1) * ulp

/-- The value of `n as f64` for `n : u64`: exact below `2^53`, otherwise
round-to-nearest-even at the precision of a 53-bit significand. -/
def u64ToF64 (n : Nat) : Nat :=
  if n < 2 ^ 53 then n
  else roundEvenMul (2 ^ (Nat.log2 n - 52)) n

/-- The message of the terminal `PyTypeError` branch of `pyobject_to_val`. -/
def unrecognizedTypeMsg : String :=
  "Unrecognized type return from Python Jsonnet native extension."

/-- The `obj.extract::<u64>(py)` step of `pyobject_to_val`.  Python `bool` is
a subtype of `int`, so a bool would extract as `0`/`1`; the source only
reaches this extraction after the `PyBool` downcast has failed. -/
def extractU64 : PyVal → Option Nat
  | .bool b => some (cond b 1 0)
  | .int n => if 0 ≤ n ∧ n < 2 ^ 64 then some n.toNat else none
  | _ => none

mutual

/-- `pyobject_to_val` (src/lib.rs lines 100-132).  The branches appear in
source order: `PyString`, `PyBool`, `PyFloat`, `u64` extraction, `None`,
`PySequence` (lists and tuples), `PyDict`, terminal `PyTypeError`.  A
negative int, or an int of at least `2^64`, fails the `u64` extraction and
falls through every later branch to the terminal `PyTypeError`. -/
def pyobject_to_val : PyVal → Except String EVal
  | .str s => .ok (.str s)
  | .bool b => .ok (.bool b)
  | .float q => .ok (.num q)
  | .int n =>
      if 0 ≤ n ∧ n < 2 ^ 64 then .ok (.num ((u64ToF64 n.toNat : Nat) : ℚ))
      else .error unrecognizedTypeMsg
  | .none => .ok .null
  | .list xs => (pyListToVals xs).map (fun vs => .arr (vs.map Except.ok))
  | .tuple xs => (pyListToVals xs).map (fun vs => .arr (vs.map Except.ok))
  | .dict entries => (pyEntriesToFields entries).map EVal.obj

/-- The element loop of the `PySequence` branch: convert each element in
order, propagating the first failure; `ArrValue::eager` wraps each result as
an already-forced element. -/
def pyListToVals : List PyVal → Except String (List EVal)
  | [] => .ok []
  | x :: xs =>
      (pyobject_to_val x).bind fun v =>
        (pyListToVals xs).map fun vs => v :: vs

/-- The entry loop of the `PyDict` branch: convert each value in order;
`extend_field(k).value(v)` yields a normal-visibility concrete member. -/
def pyEntriesToFields :
    List (String × PyVal) → Except String (List (String × Bool × Except String EVal))
  | [] => .ok []
  | (k, v) :: rest =>
      (pyobject_to_val v).bind fun w =>
        (pyEntriesToFields rest).map fun ws => (k, false, Except.ok w) :: ws

end

/-- Failure modes of `val_to_pyobject`.  The source function returns a bare
`PyObject` and fails by panicking; pyo3 surfaces a panic to the host as an
exception, so a panic is a host-visible failure carrying no partial result. -/
inductive HostConvErr where
  | unwrapEvalErr (e : String) : HostConvErr
  | funcUnimplemented : HostConvErr

/-- One field as ordered by `ObjValue::fields`. -/
abbrev ObjField := String × Bool × Except String EVal

/-- Insert one field into a name-sorted field list (ascending names). -/
def insertField (x : ObjField) : List ObjField → List ObjField
  | [] => [x]
  | y :: ys => if x.1 ≤ y.1 then x :: y :: ys else y :: insertField x ys

/-- Sort fields by name, ascending (insertion sort). -/
def sortFields : List ObjField → List ObjField
  | [] => []
  | x :: xs => insertField x (sortFields xs)

/-- `ObjValue::fields(preserve_order)`: the visible (non-hidden) fields, in
declaration order when `preserve_order` is set, else sorted by name. -/
def orderObjFields (preserveOrder : Bool) (fields : List ObjField) : List ObjField :=
  let vis := fields.filter fun f => !f.2.1
  if preserveOrder then vis else sortFields vis

theorem sizeOf_insertField (x : ObjField) (l : List ObjField) :
    sizeOf (insertField x l) = sizeOf (x :: l) := by
  induction l with
  | nil => simp [insertField]
  | cons y ys ih =>
      simp only [insertField]
      split
      · rfl
      · simp only [List.cons.sizeOf_spec, ih]; omega

theorem sizeOf_sortFields (l : List ObjField) : sizeOf (sortFields l) = sizeOf l := by
  induction l with
  | nil => rfl
  | cons x xs ih => simp [sortFields, sizeOf_insertField, ih]

theorem sizeOf_filter_le (p : ObjField → Bool) (l : List ObjField) :
    sizeOf (l.filter p) ≤ sizeOf l := by
  induction l with
  | nil => simp
  | cons x xs ih =>
      simp only [List.filter]
      split
      · simp only [List.cons.sizeOf_spec]; omega
      · simp only [List.cons.sizeOf_spec]; omega

theorem sizeOf_orderObjFields (po : Bool) (fields : List ObjField) :
    sizeOf (orderObjFields po fields) ≤ sizeOf fields := by
  unfold orderObjFields
  split
  · exact sizeOf_filter_le _ _
  · rw [sizeOf_sortFields]; exact sizeOf_filter_le _ _

mutual

/-- `val_to_pyobject` (src/lib.rs lines 134-162).  `Bool`, `Null`, `Str`,
`Num` convert directly (`Num` becomes a Python float); `Arr` eagerly forces
every element with `item.unwrap()`, so a failing element panics; `Obj`
iterates `fields(preserve_order)` (visible fields, declaration or sorted
order) and `get(field).unwrap()` panics on a failing member; `Func` is
`unimplemented!()`. -/
def val_to_pyobject (po : Bool) : EVal → Except HostConvErr PyVal
  | .bool b => .ok (.bool b)
  | .null => .ok PyVal.none
  | .str s => .ok (.str s)
  | .num q => .ok (.float q)
  | .arr elems => (arrToPyList po elems).map PyVal.list
  | .obj fields => (objFieldsToPy po (orderObjFields po fields)).map PyVal.dict
  | .func => .error .funcUnimplemented
termination_by v => sizeOf v
decreasing_by
  · simp only [EVal.arr.sizeOf_spec]; omega
  · have h := sizeOf_orderObjFields po fields
    simp only [EVal.obj.sizeOf_spec]; omega

/-- The element loop of the `Arr` branch: `a.iter()` yields forcing results;
`item.unwrap()` panics on the first `.error`. -/
def arrToPyList (po : Bool) : List (Except String EVal) → Except HostConvErr (List PyVal)
  | [] => .ok []
  | .error e :: _ => .error (.unwrapEvalErr e)
  | .ok v :: rest =>
      (val_to_pyobject po v).bind fun p =>
        (arrToPyList po rest).map fun ps => p :: ps
termination_by l => sizeOf l
decreasing_by
  · simp only [List.cons.sizeOf_spec, Except.ok.sizeOf_spec]; omega
  · simp only [List.cons.sizeOf_spec]; omega

/-- The field loop of the `Obj` branch over the already-ordered visible
fields; with unique field names `get(field)` returns exactly the field's own
member, and its `unwrap` panics on a failing member. -/
def objFieldsToPy (po : Bool) : List ObjField → Except HostConvErr (List (String × PyVal))
  | [] => .ok []
  | (_, _, .error e) :: _ => .error (.unwrapEvalErr e)
  | (k, _, .ok v) :: rest =>
      (val_to_pyobject po v).bind fun p =>
        (objFieldsToPy po rest).map fun ps => (k, p) :: ps
termination_by l => sizeOf l
decreasing_by
  · simp only [List.cons.sizeOf_spec, Prod.mk.sizeOf_spec, Except.ok.sizeOf_spec]; omega
  · simp only [List.cons.sizeOf_spec]; omega

end

/-- The numeric value of a Python value under Python's numeric tower:
`bool` is a subtype of `int` (`True == 1`), and `int`/`float` compare by
value (`3 == 3.0`). -/
def pyNumVal : PyVal → Option ℚ
  | .bool b => some (cond b 1 0)
  | .int n => some (n : ℚ)
  | .float q => some q
  | _ => none

/-- Lookup in a Python dict with string keys (first match). -/
def lookupStr (k : String) : List (String × PyVal) → Option PyVal
  | [] => Option.none
  | (k2, v) :: rest => if k = k2 then some v else lookupStr k rest

theorem sizeOf_lookupStr {k : String} {w : PyVal} :
    ∀ {ys : List (String × PyVal)}, lookupStr k ys = some w → sizeOf w < sizeOf ys := by
  intro ys
  induction ys with
  | nil => intro h; simp [lookupStr] at h
  | cons y rest ih =>
      obtain ⟨k2, v⟩ := y
      intro h
      simp only [lookupStr] at h
      split at h
      · cases h
        simp only [List.cons.sizeOf_spec, Prod.mk.sizeOf_spec]
        omega
      · have := ih h
        simp only [List.cons.sizeOf_spec]
        omega

mutual

/-- Python `==` on the embedded host values: numeric values compare by
value across `bool`/`int`/`float`; `None` and strings compare directly;
lists and tuples compare elementwise (a list never equals a tuple); dicts
compare as mappings, insensitive to entry order. -/
def pyEq (a b : PyVal) : Bool :=
  match pyNumVal a, pyNumVal b with
  | some x, some y => decide (x = y)
  | _, _ =>
    match a, b with
    | .none, .none => true
    | .str s, .str t => s = t
    | .list xs, .list ys => pyEqList xs ys
    | .tuple xs, .tuple ys => pyEqList xs ys
    | .dict xs, .dict ys => decide (xs.length = ys.length) && pyEqEntries xs ys
    | _, _ => false
termination_by sizeOf a + sizeOf b
decreasing_by
  · simp only [PyVal.list.sizeOf_spec]; omega
  · simp only [PyVal.tuple.sizeOf_spec]; omega
  · simp only [PyVal.dict.sizeOf_spec]; omega

def pyEqList : List PyVal → List PyVal → Bool
  | [], [] => true
  | x :: xs, y :: ys => pyEq x y && pyEqList xs ys
  | _, _ => false
termination_by l1 l2 => sizeOf l1 + sizeOf l2
decreasing_by
  · simp only [List.cons.sizeOf_spec]; omega
  · simp only [List.cons.sizeOf_spec]; omega

/-- Every entry of `xs` matches an entry of `ys` with Python-equal value;
together with equal lengths (and unique keys) this is Python dict equality. -/
def pyEqEntries : List (String × PyVal) → List (String × PyVal) → Bool
  | [], _ => true
  | (k, v) :: rest, ys =>
      (match h : lookupStr k ys with
       | some w => pyEq v w
       | Option.none => false)
      && pyEqEntries rest ys
termination_by l1 l2 => sizeOf l1 + sizeOf l2
decreasing_by
  · have := sizeOf_lookupStr h
    simp only [List.cons.sizeOf_spec, Prod.mk.sizeOf_spec]
    omega
  · simp only [List.cons.sizeOf_spec]; omega

end

/-- A non-negative integer that fits in `u64` and survives `u64 as f64`
without rounding: exactly the integers the marshaler converts losslessly. -/
def goodInt (n : Int) : Bool :=
  decide (0 ≤ n) && decide (n < 2 ^ 64) && decide (u64ToF64 n.toNat = n.toNat)

mutual

/-- The domain on which the round trip is claimed (as amended): values built
from booleans, `None`, strings, losslessly-representable non-negative
integers, lists, and string-keyed dicts with distinct keys.  Floats are
excluded by the claim (precision loss) and tuples return as lists, so
neither is in the domain. -/
def GoodPy : PyVal → Bool
  | .none => true
  | .bool _ => true
  | .str _ => true
  | .int n => goodInt n
  | .float _ => false
  | .list xs => GoodPyList xs
  | .tuple _ => false
  | .dict entries => decide (entries.map Prod.fst).Nodup && GoodPyEntries entries

def GoodPyList : List PyVal → Bool
  | [] => true
  | x :: xs => GoodPy x && GoodPyList xs

def GoodPyEntries : List (String × PyVal) → Bool
  | [] => true
  | (_, v) :: rest => GoodPy v && GoodPyEntries rest

end

/-! ## Import resolver adapter (`PythonImportResolver`, src/lib.rs lines 28-98) -/

/-- `jrsonnet` `SourcePath` variants as dispatched by `resolve_from`:
`SourceFile`, `SourceDirectory`, the default path, and anything else
(virtual sources). -/
inductive SourcePath where
  | file (p : String) : SourcePath
  | dir (p : String) : SourcePath
  | virt (name : String) : SourcePath
  | dflt : SourcePath
deriving DecidableEq, Repr

/-- Errors raised by `resolve_from`. -/
inductive ImportErr where
  | importIo (msg : String) : ImportErr
  | importCallbackError (msg : String) : ImportErr
  | importFileNotFound (requesting : SourcePath) (path : String) : ImportErr
deriving DecidableEq, Repr

/-- The import cache `out: RefCell<HashMap<SourcePath, Vec<u8>>>`, embedded
as an association list with unique keys (content bytes as a string). -/
abbrev ImportCache := List (SourcePath × String)

def cacheLookup (cache : ImportCache) (k : SourcePath) : Option String :=
  match cache with
  | [] => Option.none
  | (k2, v) :: rest => if k = k2 then some v else cacheLookup rest k

/-- `if !out.contains_key(&resolved) { out.insert(resolved, content); }` -/
def cacheInsertIfAbsent (cache : ImportCache) (k : SourcePath) (v : String) : ImportCache :=
  match cacheLookup cache k with
  | some _ => cache
  | Option.none => (k, v) :: cache

/-- `PathBuf::pop` on the path of a `SourceFile`: drop the last component. -/
def parentDir (p : String) : String :=
  String.intercalate "/" (p.splitOn "/").dropLast

/-- The base-directory derivation at the head of `resolve_from`:
a `SourceFile` yields its containing directory, a `SourceDirectory` yields
itself, the default path yields `env::current_dir()` (an IO action whose
outcome is the `cwd` argument), and any other source fails with
`ImportCallbackError` before the callback is invoked. -/
def baseOf (from_ : SourcePath) (cwd : Except String String) : Except ImportErr String :=
  match from_ with
  | .file p => .ok (parentDir p)
  | .dir p => .ok p
  | .dflt => cwd.mapError ImportErr.importIo
  | .virt _ => .error (.importCallbackError "import_callback error: can't resolve this path")

/-- The outcome of one `resolve_from` call: the returned result, the cache
afterwards, and whether the Python import callback was invoked during the
call. -/
structure ResolveOutcome where
  result : Except ImportErr SourcePath
  cache : ImportCache
  callbackInvoked : Bool
deriving Repr

/-- `PythonImportResolver::resolve_from` (src/lib.rs lines 36-86).  The
`cbResult` argument is what the host callback invocation plus the
`(String, Option<String>)` extraction produce on this call: `.error msg`
covers both a raised Python exception and a mismatched return shape.  Note
the callback is invoked unconditionally once a base directory is derived;
the cache is consulted only afterwards, to decide whether the returned
content is kept (`insert` if absent) or discarded (first value kept). -/
def resolve_from (cache : ImportCache) (from_ : SourcePath) (path : String)
    (cwd : Except String String) (cbResult : Except String (String × Option String)) :
    ResolveOutcome :=
  match baseOf from_ cwd with
  | .error e => ⟨.error e, cache, false⟩
  | .ok _base =>
    match cbResult with
    | .error msg =>
        ⟨.error (.importCallbackError ("import_callback error: " ++ msg)), cache, true⟩
    | .ok (resolved, some content) =>
        let rp := SourcePath.file resolved
        ⟨.ok rp, cacheInsertIfAbsent cache rp content, true⟩
    | .ok (_, Option.none) =>
        ⟨.error (.importFileNotFound from_ path), cache, true⟩

/-- `PythonImportResolver::load_file_contents` (src/lib.rs lines 88-93): a
pure lookup in the cache, with no access to the callback.  The source calls
`.unwrap()` on the lookup, so `Option.none` here embeds the fatal panic on
an identity that was never resolved. -/
def load_file_contents (cache : ImportCache) (resolved : SourcePath) : Option String :=
  cacheLookup cache resolved

/-! ## Evaluation session (`VirtualMachine`, src/lib.rs lines 197-334)

The engine itself (`jrsonnet` parser, evaluator, `apply_tla`, manifester) is
an external collaborator; the session model is parameterized by it.  The
`parse` parameter stands for both `jrsonnet_parser::parse` (used for TLA
code bindings) and the parse performed inside
`ContextInitializer::add_ext_code` (used for ext code bindings); in the
source both results are checked with `?` inside `VirtualMachine::new`. -/

/-- A parsed expression, opaque to the bridge. -/
structure ParsedExpr where
  src : String
deriving DecidableEq, Repr

/-- `TlaArg`: a string binding, or a code binding parsed at construction. -/
inductive TlaArg where
  | str (s : String) : TlaArg
  | code (e : ParsedExpr) : TlaArg
deriving DecidableEq, Repr

/-- The session state assembled by `VirtualMachine::new`, restricted to the
binding tables the claims are about. -/
structure VM where
  extStrs : List (String × String)
  extCodes : List (String × ParsedExpr)
  tlaArgs : List (String × TlaArg)
deriving DecidableEq, Repr

/-- Parse every code binding of a table, in order, propagating the first
parse failure (each `add_ext_code`/`jrsonnet_parser::parse` result is
checked with `?` in `VirtualMachine::new`). -/
def bindCodes (parse : String → Except String ParsedExpr) :
    List (String × String) → Except String (List (String × ParsedExpr))
  | [] => .ok []
  | (k, v) :: rest =>
      (parse v).bind fun e => (bindCodes parse rest).map fun es => (k, e) :: es

/-- `VirtualMachine::new` (src/lib.rs lines 207-304), restricted to binding
processing: ext strings are installed verbatim; ext code bindings are parsed
eagerly; TLA strings become `TlaArg::String`; TLA code bindings are parsed
eagerly by `jrsonnet_parser::parse`.  Any parse failure aborts construction
with an error. -/
def vm_new (parse : String → Except String ParsedExpr)
    (ext_vars ext_codes tla_vars tla_codes : List (String × String)) :
    Except String VM :=
  (bindCodes parse ext_codes).bind fun ecs =>
    (bindCodes parse tla_codes).map fun tcs =>
      { extStrs := ext_vars
        extCodes := ecs
        tlaArgs := tla_vars.map (fun kv => (kv.1, TlaArg.str kv.2))
            ++ tcs.map (fun kv => (kv.1, TlaArg.code kv.2)) }

/-- The requesting identity `VirtualMachine::evaluate_file` passes to
`State::import_from`: the source constructs
`SourcePath::new(SourceDirectory::new("."))`, the relative current
directory — not the default path. -/
def entryImportIdentity : SourcePath := .dir "."

/-- `VirtualMachine::evaluate_file` (src/lib.rs lines 306-311): import the
entry file from the `SourceDirectory(".")` identity through the configured
resolver, then apply the TLA bindings, then manifest; errors short-circuit
in that order.  `importFrom`, `applyTla` and `manifest` are the engine's
black-box operations. -/
def evaluate_file (importFrom : SourcePath → String → Except String EVal)
    (applyTla : EVal → Except String EVal)
    (manifest : EVal → Except String String)
    (filename : String) : Except String String :=
  (importFrom entryImportIdentity filename).bind fun v =>
    (applyTla v).bind fun w => manifest w

/-- The module-level `evaluate_file` entry point (src/lib.rs lines 368-402):
construct the `VirtualMachine`, then hand the session to the engine (`run`);
a construction error is returned without the engine ever running. -/
def evaluate_file_entry (parse : String → Except String ParsedExpr)
    (ext_vars ext_codes tla_vars tla_codes : List (String × String))
    (run : VM → Except String String) : Except String String :=
  (vm_new parse ext_vars ext_codes tla_vars tla_codes).bind run

/-! ## Helper lemmas -/

theorem cacheLookup_insertIfAbsent_self (cache : ImportCache) (k : SourcePath) (v : String) :
    cacheLookup (cacheInsertIfAbsent cache k v) k = some ((cacheLookup cache k).getD v) := by
  unfold cacheInsertIfAbsent
  cases h : cacheLookup cache k with
  | none => simp [cacheLookup, h]
  | some w => simp [h]

theorem cacheInsertIfAbsent_of_cached (cache : ImportCache) (k : SourcePath) (v c0 : String)
    (h : cacheLookup cache k = some c0) :
    cacheInsertIfAbsent cache k v = cache := by
  unfold cacheInsertIfAbsent
  rw [h]

/-- With a successfully derived base directory and content present,
`resolve_from` returns the wrapped file identity, inserts the content only
if the identity is uncached, and has invoked the callback. -/
theorem resolve_from_content_eq (cache : ImportCache) (from_ : SourcePath) (path : String)
    (cwd : Except String String) (s c : String) (b : String)
    (hb : baseOf from_ cwd = .ok b) :
    resolve_from cache from_ path cwd (.ok (s, some c)) =
      ⟨.ok (.file s), cacheInsertIfAbsent cache (.file s) c, true⟩ := by
  unfold resolve_from
  rw [hb]

/-! ## Claim theorems -/

/-- C3: the import cache is populated at most once per resolved identity.
Resolving the same `(from, path)` pair twice — the host callback returning
the same resolved path string both times but possibly different content —
yields the same resolved identity both times, leaves the cache of the first
resolution untouched, and the content subsequently loaded equals the first
cached content (equal to `c1` when the identity was fresh before the first
call). -/
theorem import_cache_at_most_once (cache : ImportCache) (from_ : SourcePath) (path : String)
    (cwd1 cwd2 : Except String String) (s c1 c2 : String)
    (hb1 : ∃ b, baseOf from_ cwd1 = .ok b) (hb2 : ∃ b, baseOf from_ cwd2 = .ok b) :
    (resolve_from cache from_ path cwd1 (.ok (s, some c1))).result = .ok (.file s)
  ∧ (resolve_from (resolve_from cache from_ path cwd1 (.ok (s, some c1))).cache
        from_ path cwd2 (.ok (s, some c2))).result = .ok (.file s)
  ∧ (resolve_from (resolve_from cache from_ path cwd1 (.ok (s, some c1))).cache
        from_ path cwd2 (.ok (s, some c2))).cache =
      (resolve_from cache from_ path cwd1 (.ok (s, some c1))).cache
  ∧ (cacheLookup cache (.file s) = Option.none →
      load_file_contents
        (resolve_from (resolve_from cache from_ path cwd1 (.ok (s, some c1))).cache
          from_ path cwd2 (.ok (s, some c2))).cache (.file s) = some c1) := by
  obtain ⟨b1, hb1⟩ := hb1
  obtain ⟨b2, hb2⟩ := hb2
  rw [resolve_from_content_eq cache from_ path cwd1 s c1 b1 hb1]
  have hcached : cacheLookup (cacheInsertIfAbsent cache (.file s) c1) (.file s) =
      some ((cacheLookup cache (.file s)).getD c1) :=
    cacheLookup_insertIfAbsent_self cache (.file s) c1
  rw [resolve_from_content_eq (cacheInsertIfAbsent cache (.file s) c1) from_ path cwd2 s c2 b2 hb2]
  refine ⟨rfl, rfl, ?_, ?_⟩
  · exact cacheInsertIfAbsent_of_cached _ _ _ _ hcached
  · intro hfresh
    rw [cacheInsertIfAbsent_of_cached _ _ _ _ hcached]
    unfold load_file_contents
    rw [hcached, hfresh]
    rfl

theorem import_cache_at_most_once_witness :
    (resolve_from [] (.dir "/app") "a.libsonnet" (.ok "/w")
        (.ok ("/app/a.libsonnet", some "first"))).result = .ok (.file "/app/a.libsonnet")
  ∧ (resolve_from (resolve_from [] (.dir "/app") "a.libsonnet" (.ok "/w")
          (.ok ("/app/a.libsonnet", some "first"))).cache
        (.dir "/app") "a.libsonnet" (.ok "/w")
        (.ok ("/app/a.libsonnet", some "second"))).result = .ok (.file "/app/a.libsonnet")
  ∧ (resolve_from (resolve_from [] (.dir "/app") "a.libsonnet" (.ok "/w")
          (.ok ("/app/a.libsonnet", some "first"))).cache
        (.dir "/app") "a.libsonnet" (.ok "/w")
        (.ok ("/app/a.libsonnet", some "second"))).cache =
      (resolve_from [] (.dir "/app") "a.libsonnet" (.ok "/w")
        (.ok ("/app/a.libsonnet", some "first"))).cache
  ∧ (cacheLookup [] (.file "/app/a.libsonnet") = Option.none →
      load_file_contents
        (resolve_from (resolve_from [] (.dir "/app") "a.libsonnet" (.ok "/w")
            (.ok ("/app/a.libsonnet", some "first"))).cache
          (.dir "/app") "a.libsonnet" (.ok "/w")
          (.ok ("/app/a.libsonnet", some "second"))).cache (.file "/app/a.libsonnet") =
        some "first") :=
  import_cache_at_most_once [] (.dir "/app") "a.libsonnet"
    (.ok "/w") (.ok "/w") "/app/a.libsonnet" "first" "second"
    ⟨"/app", rfl⟩ ⟨"/app", rfl⟩

/-- C4 counterexample: the claim says a resolution of an already-cached
identity does not call the host callback again, but `resolve_from` invokes
the callback unconditionally (the cache is consulted only afterwards to
discard the new content): here the identity `/lib/a.libsonnet` is cached,
yet the call reports the callback as invoked. -/
theorem resolve_cached_reinvokes_callback_cex :
    cacheLookup [((SourcePath.file "/lib/a.libsonnet"), "first")]
      (.file "/lib/a.libsonnet") = some "first"
  ∧ (resolve_from [((SourcePath.file "/lib/a.libsonnet"), "first")] (.dir "/app")
      "a.libsonnet" (.ok "/w") (.ok ("/lib/a.libsonnet", some "second"))).callbackInvoked
      = true :=
  ⟨rfl, rfl⟩

/-- C4 as amended: a second resolution of an already-cached identity does
re-invoke the host callback, but discards what it returns: the result is the
cached identity, the cache keeps its first content unchanged, and the
content subsequently loaded is the first cached content. -/
theorem resolve_cached_keeps_first_content (cache : ImportCache) (from_ : SourcePath)
    (path : String) (cwd : Except String String) (s c c0 : String)
    (hb : ∃ b, baseOf from_ cwd = .ok b)
    (hcached : cacheLookup cache (.file s) = some c0) :
    resolve_from cache from_ path cwd (.ok (s, some c)) = ⟨.ok (.file s), cache, true⟩
  ∧ load_file_contents cache (.file s) = some c0 := by
  obtain ⟨b, hb⟩ := hb
  rw [resolve_from_content_eq cache from_ path cwd s c b hb]
  rw [cacheInsertIfAbsent_of_cached _ _ _ _ hcached]
  exact ⟨rfl, hcached⟩

theorem resolve_cached_keeps_first_content_witness :
    resolve_from [((SourcePath.file "/lib/a.libsonnet"), "first")] (.dir "/app")
      "a.libsonnet" (.ok "/w") (.ok ("/lib/a.libsonnet", some "second")) =
      ⟨.ok (.file "/lib/a.libsonnet"), [((SourcePath.file "/lib/a.libsonnet"), "first")], true⟩
  ∧ load_file_contents [((SourcePath.file "/lib/a.libsonnet"), "first")]
      (.file "/lib/a.libsonnet") = some "first" :=
  resolve_cached_keeps_first_content [((SourcePath.file "/lib/a.libsonnet"), "first")]
    (.dir "/app") "a.libsonnet" (.ok "/w") "/lib/a.libsonnet" "second" "first"
    ⟨"/app", rfl⟩ rfl

/-- C7: `load_file_contents` is a pure cache lookup — it is literally
`cacheLookup` (and its signature has no access to the host callback).  After
a `resolve_from` that resolved to identity `s`, loading `s` returns the
cached bytes (the pre-existing bytes if the identity was already cached,
else the just-inserted content); for an identity absent from the cache the
lookup is `Option.none`, which embeds the fatal `unwrap` panic — the
protocol violation branch. -/
theorem load_pure_cache_lookup (cache : ImportCache) (from_ : SourcePath)
    (path : String) (cwd : Except String String) (s c : String)
    (hb : ∃ b, baseOf from_ cwd = .ok b) :
    (∀ cc : ImportCache, ∀ p : SourcePath, load_file_contents cc p = cacheLookup cc p)
  ∧ load_file_contents (resolve_from cache from_ path cwd (.ok (s, some c))).cache (.file s)
      = some ((cacheLookup cache (.file s)).getD c)
  ∧ (∀ cc : ImportCache, ∀ p : SourcePath,
      cacheLookup cc p = Option.none → load_file_contents cc p = Option.none) := by
  obtain ⟨b, hb⟩ := hb
  refine ⟨fun _ _ => rfl, ?_, fun _ _ h => h⟩
  rw [resolve_from_content_eq cache from_ path cwd s c b hb]
  exact cacheLookup_insertIfAbsent_self cache (.file s) c

theorem load_pure_cache_lookup_witness :
    (∀ cc : ImportCache, ∀ p : SourcePath, load_file_contents cc p = cacheLookup cc p)
  ∧ load_file_contents (resolve_from [] (.dir "/app") "a.libsonnet" (.ok "/w")
        (.ok ("/app/a.libsonnet", some "text"))).cache (.file "/app/a.libsonnet")
      = some ((cacheLookup [] (.file "/app/a.libsonnet")).getD "text")
  ∧ (∀ cc : ImportCache, ∀ p : SourcePath,
      cacheLookup cc p = Option.none → load_file_contents cc p = Option.none) :=
  load_pure_cache_lookup [] (.dir "/app") "a.libsonnet" (.ok "/w")
    "/app/a.libsonnet" "text" ⟨"/app", rfl⟩

/-- C9: when the host callback returns a pair with absent content,
`resolve_from` fails with `ImportFileNotFound` carrying the requesting
identity and the requested relative path, and the cache is left unchanged
(no entry inserted). -/
theorem resolve_absent_content_fnf (cache : ImportCache) (from_ : SourcePath)
    (path : String) (cwd : Except String String) (s : String)
    (hb : ∃ b, baseOf from_ cwd = .ok b) :
    resolve_from cache from_ path cwd (.ok (s, Option.none)) =
      ⟨.error (.importFileNotFound from_ path), cache, true⟩ := by
  obtain ⟨b, hb⟩ := hb
  unfold resolve_from
  rw [hb]

theorem resolve_absent_content_fnf_witness :
    resolve_from [] (.dir "/app") "a.ext" (.ok "/w")
      (.ok ("/lib/a.ext", Option.none)) =
      ⟨.error (.importFileNotFound (.dir "/app") "a.ext"), [], true⟩ :=
  resolve_absent_content_fnf [] (.dir "/app") "a.ext" (.ok "/w")
    "/lib/a.ext" ⟨"/app", rfl⟩

/-- C10: a Python bool marshals as an engine `Bool`, never as a `Number`,
although Python `bool` is a subtype of `int` and the `u64` extraction would
accept it (as `extractU64` shows): the source checks `PyBool` before the
`u64` extraction, so `True`/`False` never marshal as `1`/`0`. -/
theorem bool_marshals_as_bool :
    pyobject_to_val (.bool true) = .ok (.bool true)
  ∧ pyobject_to_val (.bool false) = .ok (.bool false)
  ∧ extractU64 (.bool true) = some 1
  ∧ extractU64 (.bool false) = some 0 :=
  ⟨rfl, rfl, rfl, rfl⟩

/-- C2 counterexample: the claim states that no numeric host input fails to
convert and that non-integer-representable numerics (including negative
integers) become floating-point numbers; but a negative int fails the `u64`
extraction, is no float, sequence or dict, and lands in the terminal
`PyTypeError` branch: conversion of the numeric input `-7` fails. -/
theorem negative_int_conversion_fails_cex :
    pyobject_to_val (PyVal.int (-7)) = .error unrecognizedTypeMsg :=
  rfl

/-- C2 as amended: a non-negative integer below `2^64` converts to an engine
number holding its `u64 as f64` rounding — exactly the integer itself
whenever the integer is below `2^53` (exact integer representation); a
float converts to an engine number of the same value; but a negative
integer, and an integer of at least `2^64`, fail with the terminal
`PyTypeError` rather than converting to floating point. -/
theorem numeric_conversion_amended (n : Int) (q : ℚ) :
    (0 ≤ n → n < 2 ^ 64 →
      pyobject_to_val (.int n) = .ok (.num ((u64ToF64 n.toNat : Nat) : ℚ)))
  ∧ (0 ≤ n → n < 2 ^ 53 → pyobject_to_val (.int n) = .ok (.num (n : ℚ)))
  ∧ (n < 0 → pyobject_to_val (.int n) = .error unrecognizedTypeMsg)
  ∧ (2 ^ 64 ≤ n → pyobject_to_val (.int n) = .error unrecognizedTypeMsg)
  ∧ pyobject_to_val (.float q) = .ok (.num q) := by
  refine ⟨?_, ?_, ?_, ?_, rfl⟩
  · intro h0 h64
    simp only [pyobject_to_val]
    rw [if_pos ⟨h0, h64⟩]
  · intro h0 h53
    simp only [pyobject_to_val]
    rw [if_pos ⟨h0, by omega⟩]
    have ht : n.toNat < 2 ^ 53 := by omega
    have : u64ToF64 n.toNat = n.toNat := by
      unfold u64ToF64
      rw [if_pos ht]
    rw [this]
    have hcast : ((n.toNat : Nat) : ℚ) = (n : ℚ) := by
      exact_mod_cast congrArg (fun z : ℤ => (z : ℚ)) (Int.toNat_of_nonneg h0)
    rw [hcast]
  · intro hneg
    simp only [pyobject_to_val]
    rw [if_neg (by omega)]
  · intro hbig
    simp only [pyobject_to_val]
    rw [if_neg (by omega)]

theorem numeric_conversion_amended_witness :
    pyobject_to_val (PyVal.int 7) = .ok (.num (7 : ℚ)) :=
  (numeric_conversion_amended 7 0).2.1 (by norm_num) (by norm_num)

/-- C5 counterexample: the claim states that `evaluate_file` resolves the
entry path against the Default (current-working-directory) source identity;
the source instead constructs `SourceDirectory(".")`, a different identity
whose derived base directory is the relative path `"."` rather than the
process working directory. -/
theorem entry_identity_not_default_cex :
    entryImportIdentity = SourcePath.dir "."
  ∧ entryImportIdentity ≠ SourcePath.dflt
  ∧ baseOf entryImportIdentity (.ok "/work") = .ok "."
  ∧ baseOf SourcePath.dflt (.ok "/work") = .ok "/work" :=
  ⟨rfl, by decide, rfl, rfl⟩

/-- C5 as amended: `evaluate_file(path)` resolves `path` against the
`SourceDirectory(".")` identity through the configured import resolver, then
evaluates, applies the TLA bindings, and manifests the result: an import
failure short-circuits with that error before TLA application, and when
import, TLA application and manifestation all succeed, the manifested text
is returned. -/
theorem evaluate_file_pipeline (importFrom : SourcePath → String → Except String EVal)
    (applyTla : EVal → Except String EVal) (manifest : EVal → Except String String)
    (fn : String) :
    (evaluate_file importFrom applyTla manifest fn =
      (importFrom (SourcePath.dir ".") fn).bind fun v => (applyTla v).bind manifest)
  ∧ (∀ e, importFrom (SourcePath.dir ".") fn = .error e →
      evaluate_file importFrom applyTla manifest fn = .error e)
  ∧ (∀ v w t, importFrom (SourcePath.dir ".") fn = .ok v → applyTla v = .ok w →
      manifest w = .ok t → evaluate_file importFrom applyTla manifest fn = .ok t) := by
  refine ⟨rfl, ?_, ?_⟩
  · intro e he
    unfold evaluate_file entryImportIdentity
    rw [he]
    rfl
  · intro v w t hv hw ht
    unfold evaluate_file entryImportIdentity
    rw [hv]
    show (applyTla v).bind _ = _
    rw [hw]
    show manifest w = _
    rw [ht]

theorem evaluate_file_pipeline_witness :
    evaluate_file
      (fun sp f => if sp = SourcePath.dir "." ∧ f = "main.jsonnet"
        then .ok (.num 1) else .error "no entry")
      (fun v => .ok v) (fun _ => .ok "1") "main.jsonnet" = .ok "1" :=
  (evaluate_file_pipeline
      (fun sp f => if sp = SourcePath.dir "." ∧ f = "main.jsonnet"
        then .ok (.num 1) else .error "no entry")
      (fun v => .ok v) (fun _ => .ok "1") "main.jsonnet").2.2
    (.num 1) (.num 1) "1" (by simp) rfl rfl

/-- C6: converting an engine `Array` to a host value forces every element
eagerly, and the first element whose forcing yields an evaluator error makes
the whole conversion fail with that error (embedded panic carrying the
error), never a partial host list: here every element before the failing one
converts successfully, and the result is exactly the failure of element
`e`. -/
theorem array_error_element_propagates (po : Bool) (pre : List (Except String EVal))
    (e : String) (post : List (Except String EVal))
    (hpre : ∀ x ∈ pre, ∃ v p, x = .ok v ∧ val_to_pyobject po v = .ok p) :
    val_to_pyobject po (.arr (pre ++ .error e :: post)) =
      .error (.unwrapEvalErr e) := by
  have key : ∀ pre2 : List (Except String EVal),
      (∀ x ∈ pre2, ∃ v p, x = .ok v ∧ val_to_pyobject po v = .ok p) →
      arrToPyList po (pre2 ++ .error e :: post) = .error (.unwrapEvalErr e) := by
    intro pre2
    induction pre2 with
    | nil => intro _; simp [arrToPyList]
    | cons x xs ih =>
        intro hpre2
        obtain ⟨v, p, hx, hv⟩ := hpre2 x (by simp)
        subst hx
        have ih2 := ih (fun y hy => hpre2 y (by simp [hy]))
        simp only [List.cons_append, arrToPyList, hv, ih2, Except.bind, Except.map]
  have hlist := key pre hpre
  simp only [val_to_pyobject, hlist, Except.map]

theorem array_error_element_propagates_witness :
    val_to_pyobject false (.arr [.ok (.num 1), .error "boom"]) =
      .error (.unwrapEvalErr "boom") :=
  array_error_element_propagates false [.ok (.num 1)] "boom" []
    (by
      intro x hx
      simp only [List.mem_singleton] at hx
      subst hx
      exact ⟨.num 1, .float 1, rfl, by simp [val_to_pyobject]⟩)

/-- Helper for C8: a code-binding table containing an entry its parser
rejects makes the whole eager parse of the table fail. -/
theorem bindCodes_error_of_mem (parse : String → Except String ParsedExpr)
    (l : List (String × String))
    (h : ∃ kv ∈ l, ∃ m, parse kv.2 = .error m) :
    ∃ msg, bindCodes parse l = .error msg := by
  induction l with
  | nil => simp at h
  | cons kv rest ih =>
      obtain ⟨kv2, hmem, m, hm⟩ := h
      rcases List.mem_cons.mp hmem with rfl | hmem2
      · cases hp : parse kv2.2 with
        | error m2 =>
            refine ⟨m2, ?_⟩
            obtain ⟨k, v⟩ := kv2
            simp only [bindCodes, hp]
            rfl
        | ok e => rw [hp] at hm; cases hm
      · cases hp : parse kv.2 with
        | error m2 =>
            refine ⟨m2, ?_⟩
            obtain ⟨k, v⟩ := kv
            simp only [bindCodes, hp]
            rfl
        | ok e =>
            obtain ⟨msg, hmsg⟩ := ih ⟨kv2, hmem2, m, hm⟩
            refine ⟨msg, ?_⟩
            obtain ⟨k, v⟩ := kv
            simp only [bindCodes, hp, hmsg]
            rfl

/-- C8: ext code bindings and TLA code bindings are parsed eagerly during
`VirtualMachine::new`: if any code-valued binding is malformed (its parse
fails), construction returns an error, and the module entry point returns
that construction error no matter what the engine would do — evaluation is
never entered. -/
theorem malformed_code_binding_fails_construction
    (parse : String → Except String ParsedExpr)
    (ext_vars ext_codes tla_vars tla_codes : List (String × String))
    (h : (∃ kv ∈ ext_codes, ∃ m, parse kv.2 = .error m)
       ∨ (∃ kv ∈ tla_codes, ∃ m, parse kv.2 = .error m)) :
    ∃ msg, vm_new parse ext_vars ext_codes tla_vars tla_codes = .error msg
      ∧ ∀ run, evaluate_file_entry parse ext_vars ext_codes tla_vars tla_codes run =
          .error msg := by
  have hvm : ∃ msg, vm_new parse ext_vars ext_codes tla_vars tla_codes = .error msg := by
    rcases h with hext | htla
    · obtain ⟨msg, hmsg⟩ := bindCodes_error_of_mem parse ext_codes hext
      refine ⟨msg, ?_⟩
      unfold vm_new
      rw [hmsg]
      rfl
    · cases hec : bindCodes parse ext_codes with
      | error m => exact ⟨m, by unfold vm_new; rw [hec]; rfl⟩
      | ok ecs =>
          obtain ⟨msg, hmsg⟩ := bindCodes_error_of_mem parse tla_codes htla
          refine ⟨msg, ?_⟩
          unfold vm_new
          rw [hec]
          show (bindCodes parse tla_codes).map _ = _
          rw [hmsg]
          rfl
  obtain ⟨msg, hmsg⟩ := hvm
  refine ⟨msg, hmsg, fun run => ?_⟩
  unfold evaluate_file_entry
  rw [hmsg]
  rfl

theorem malformed_code_binding_fails_construction_witness :
    ∃ msg, vm_new (fun s => if s = "local x =" then .error "expected expression"
        else .ok ⟨s⟩) [] [] [("y", "2")] [("x", "local x =")] = .error msg
      ∧ ∀ run, evaluate_file_entry (fun s => if s = "local x =" then .error "expected expression"
          else .ok ⟨s⟩) [] [] [("y", "2")] [("x", "local x =")] run = .error msg :=
  malformed_code_binding_fails_construction
    (fun s => if s = "local x =" then .error "expected expression" else .ok ⟨s⟩)
    [] [] [("y", "2")] [("x", "local x =")]
    (Or.inr ⟨("x", "local x ="), by simp, "expected expression", by simp⟩)

/-- Helper: a left member of a `Forall₂` has a related right member. -/
theorem forall2_mem_left {α β : Type _} {R : α → β → Prop} :
    ∀ {l1 : List α} {l2 : List β}, List.Forall₂ R l1 l2 →
      ∀ {x : α}, x ∈ l1 → ∃ y ∈ l2, R x y := by
  intro l1 l2 h
  induction h with
  | nil => intro x hx; cases hx
  | cons hr _ ih =>
      intro x hx
      rcases List.mem_cons.mp hx with rfl | hx2
      · exact ⟨_, by simp, hr⟩
      · obtain ⟨y, hy, hry⟩ := ih hx2
        exact ⟨y, by simp [hy], hry⟩

/-- Helper: in an entry list with distinct keys, `lookupStr` finds exactly
the member entry. -/
theorem lookupStr_eq_of_mem_nodup {k : String} {v : PyVal} :
    ∀ {entries : List (String × PyVal)}, (k, v) ∈ entries →
      (entries.map Prod.fst).Nodup → lookupStr k entries = some v := by
  intro entries
  induction entries with
  | nil => intro hmem _; cases hmem
  | cons kv rest ih =>
      intro hmem hnd
      obtain ⟨k2, v2⟩ := kv
      simp only [List.map_cons, List.nodup_cons] at hnd
      rcases List.mem_cons.mp hmem with heq | hmem2
      · cases heq
        simp [lookupStr]
      · have hkmem : k ∈ rest.map Prod.fst := List.mem_map_of_mem Prod.fst hmem2
        have hne : k ≠ k2 := fun he => hnd.1 (he ▸ hkmem)
        simp only [lookupStr, if_neg hne]
        exact ih hmem2 hnd.2

theorem insertField_perm (x : ObjField) (l : List ObjField) :
    (insertField x l).Perm (x :: l) := by
  induction l with
  | nil => simp [insertField]
  | cons y ys ih =>
      simp only [insertField]
      split
      · exact List.Perm.refl _
      · exact (ih.cons y).trans (List.Perm.swap x y ys)

theorem sortFields_perm (l : List ObjField) : (sortFields l).Perm l := by
  induction l with
  | nil => simp [sortFields]
  | cons x xs ih => exact (insertField_perm x (sortFields xs)).trans (ih.cons x)

/-- Helper: on an all-visible field list, `fields(preserve_order)` is a
permutation of the declaration list. -/
theorem orderObjFields_perm (po : Bool) (l : List ObjField)
    (h : ∀ f ∈ l, f.2.1 = false) : (orderObjFields po l).Perm l := by
  have hfilter : l.filter (fun f => !f.2.1) = l :=
    List.filter_eq_self.mpr (fun f hf => by simp [h f hf])
  simp only [orderObjFields]
  rw [hfilter]
  split
  · exact List.Perm.refl l
  · exact sortFields_perm l

/-- Helper: a field list whose members all force and convert successfully
converts as a whole, entrywise. -/
theorem objFieldsToPy_ok (po : Bool) :
    ∀ l : List ObjField,
      (∀ f ∈ l, ∃ w p, f.2.2 = Except.ok w ∧ val_to_pyobject po w = .ok p) →
      ∃ qs, objFieldsToPy po l = .ok qs ∧
        List.Forall₂ (fun (q : String × PyVal) (f : ObjField) =>
          q.1 = f.1 ∧ ∃ w, f.2.2 = Except.ok w ∧ val_to_pyobject po w = .ok q.2) qs l := by
  intro l
  induction l with
  | nil => intro _; exact ⟨[], by simp [objFieldsToPy], List.Forall₂.nil⟩
  | cons f rest ih =>
      intro hl
      obtain ⟨w, p, hw, hp⟩ := hl f (by simp)
      obtain ⟨qs, hqs, hf2⟩ := ih (fun g hg => hl g (by simp [hg]))
      obtain ⟨k, hid, fv⟩ := f
      simp only at hw
      subst hw
      refine ⟨(k, p) :: qs, ?_, ?_⟩
      · simp only [objFieldsToPy, hp, hqs, Except.bind, Except.map]
      · exact List.Forall₂.cons ⟨rfl, w, rfl, hp⟩ hf2

/-- Helper: entrywise matching with equal lengths gives Python dict
equality. -/
theorem pyEqEntries_of_forall :
    ∀ qs entries : List (String × PyVal),
      (∀ q ∈ qs, ∃ v, lookupStr q.1 entries = some v ∧ pyEq q.2 v = true) →
      pyEqEntries qs entries = true := by
  intro qs entries
  induction qs with
  | nil => intro _; simp [pyEqEntries]
  | cons q rest ih =>
      intro hq
      obtain ⟨v, hv, he⟩ := hq q (by simp)
      obtain ⟨k, p⟩ := q
      simp only at hv he
      simp only [pyEqEntries, Bool.and_eq_true]
      refine ⟨?_, ih (fun r hr => hq r (by simp [hr]))⟩
      split
      · next w hw =>
          rw [hv] at hw
          cases hw
          exact he
      · next hw =>
          rw [hv] at hw
          cases hw

/-- Helper: elementwise round trip lifts to sequences. -/
theorem rt_list (po : Bool) :
    ∀ xs : List PyVal,
      (∀ x ∈ xs, GoodPy x = true →
        ∃ ev hv, pyobject_to_val x = .ok ev ∧ val_to_pyobject po ev = .ok hv ∧
          pyEq hv x = true) →
      GoodPyList xs = true →
      ∃ evs hvs, pyListToVals xs = .ok evs ∧
        arrToPyList po (evs.map Except.ok) = .ok hvs ∧ pyEqList hvs xs = true := by
  intro xs
  induction xs with
  | nil => intro _ _; exact ⟨[], [], rfl, by simp [arrToPyList], by simp [pyEqList]⟩
  | cons x rest ih =>
      intro hih hg
      simp only [GoodPyList, Bool.and_eq_true] at hg
      obtain ⟨ev, hv, h1, h2, h3⟩ := hih x (by simp) hg.1
      obtain ⟨evs, hvs, g1, g2, g3⟩ := ih (fun y hy => hih y (by simp [hy])) hg.2
      refine ⟨ev :: evs, hv :: hvs, ?_, ?_, ?_⟩
      · simp only [pyListToVals, h1, g1, Except.bind, Except.map]
      · simp only [List.map_cons, arrToPyList, h2, g2, Except.bind, Except.map]
      · simp only [pyEqList, h3, g3, Bool.and_self]

/-- Helper: valuewise round trip lifts to dict entries, giving the field
list `pyEntriesToFields` builds together with its correspondence to the
original entries. -/
theorem rt_entries (po : Bool) :
    ∀ entries : List (String × PyVal),
      (∀ kv ∈ entries, GoodPy kv.2 = true →
        ∃ ev hv, pyobject_to_val kv.2 = .ok ev ∧ val_to_pyobject po ev = .ok hv ∧
          pyEq hv kv.2 = true) →
      GoodPyEntries entries = true →
      ∃ flds, pyEntriesToFields entries = .ok flds ∧
        List.Forall₂ (fun (f : ObjField) (kv : String × PyVal) =>
          f.1 = kv.1 ∧ f.2.1 = false ∧
          ∃ w hv, f.2.2 = Except.ok w ∧ val_to_pyobject po w = .ok hv ∧
            pyEq hv kv.2 = true) flds entries := by
  intro entries
  induction entries with
  | nil => intro _ _; exact ⟨[], rfl, List.Forall₂.nil⟩
  | cons kv rest ih =>
      intro hih hg
      obtain ⟨k, v⟩ := kv
      simp only [GoodPyEntries, Bool.and_eq_true] at hg
      obtain ⟨ev, hv, h1, h2, h3⟩ := hih (k, v) (by simp) hg.1
      obtain ⟨flds, hflds, hf2⟩ := ih (fun kv2 hkv2 => hih kv2 (by simp [hkv2])) hg.2
      refine ⟨(k, false, Except.ok ev) :: flds, ?_, ?_⟩
      · simp only [pyEntriesToFields, h1, hflds, Except.bind, Except.map]
      · exact List.Forall₂.cons ⟨rfl, rfl, ev, hv, rfl, h2, h3⟩ hf2

/-- Helper: an object whose fields correspond valuewise to dict entries with
distinct keys converts to a Python-equal dict, for either field order. -/
theorem rt_obj (po : Bool) (entries : List (String × PyVal)) (flds : List ObjField)
    (hf : List.Forall₂ (fun (f : ObjField) (kv : String × PyVal) =>
        f.1 = kv.1 ∧ f.2.1 = false ∧
        ∃ w hv, f.2.2 = Except.ok w ∧ val_to_pyobject po w = .ok hv ∧
          pyEq hv kv.2 = true) flds entries)
    (hnodup : (entries.map Prod.fst).Nodup) :
    ∃ qs, val_to_pyobject po (.obj flds) = .ok (.dict qs) ∧
      pyEq (.dict qs) (.dict entries) = true := by
  have hvis : ∀ f ∈ flds, f.2.1 = false := by
    intro f hfm
    obtain ⟨kv, _, _, h2, _⟩ := forall2_mem_left hf hfm
    exact h2
  have hperm := orderObjFields_perm po flds hvis
  have hconv : ∀ f ∈ orderObjFields po flds,
      ∃ w p, f.2.2 = Except.ok w ∧ val_to_pyobject po w = .ok p := by
    intro f hfm
    obtain ⟨kv, _, _, _, w, hv, hw, hcv, _⟩ := forall2_mem_left hf (hperm.mem_iff.mp hfm)
    exact ⟨w, hv, hw, hcv⟩
  obtain ⟨qs, hqs, hq2⟩ := objFieldsToPy_ok po (orderObjFields po flds) hconv
  refine ⟨qs, ?_, ?_⟩
  · simp only [val_to_pyobject, hqs, Except.map]
  · have hlen : qs.length = entries.length := by
      rw [hq2.length_eq, hperm.length_eq, hf.length_eq]
    have hentries : ∀ q ∈ qs, ∃ v, lookupStr q.1 entries = some v ∧ pyEq q.2 v = true := by
      intro q hqm
      obtain ⟨f, hfm, hqf1, w, hfw, hcw⟩ := forall2_mem_left hq2 hqm
      have hfm2 : f ∈ flds := hperm.mem_iff.mp hfm
      obtain ⟨kv, hkvm, hk1, _, w2, hv2, hw2, hcv2, he2⟩ := forall2_mem_left hf hfm2
      rw [hfw] at hw2
      injection hw2 with hww
      subst hww
      rw [hcw] at hcv2
      injection hcv2 with hqv
      obtain ⟨kk, vv⟩ := kv
      simp only at hk1 he2
      refine ⟨vv, ?_, ?_⟩
      · rw [hqf1, hk1]
        exact lookupStr_eq_of_mem_nodup hkvm hnodup
      · rw [show q.2 = hv2 from hqv]
        exact he2
    simp only [pyEq, pyNumVal, Bool.and_eq_true, decide_eq_true_eq]
    exact ⟨hlen, pyEqEntries_of_forall qs entries hentries⟩

/-- C1 counterexample: the claim includes every exactly-representable
integer in the round-trip domain, but a negative integer (here `-1`,
exactly representable in an IEEE double) does not round-trip: already the
host-to-engine direction fails, landing in the terminal `PyTypeError`
branch of `pyobject_to_val`. -/
theorem round_trip_fails_on_negative_int_cex :
    pyobject_to_val (PyVal.int (-1)) = .error unrecognizedTypeMsg :=
  rfl

/-- C1 as amended: for every host value built only from booleans, `None`,
strings, non-negative integers below `2^64` whose `u64 as f64` conversion is
exact, lists, and string-keyed dicts with distinct keys, converting to an
engine value and back yields a host value Python-equal (`==`) to the
original, for either setting of `preserve_order` (integers come back as
numerically equal floats; negative integers are excluded because their
conversion fails, and tuples because they come back as lists). -/
theorem marshal_round_trip (po : Bool) (v : PyVal) (h : GoodPy v = true) :
    ∃ ev hv, pyobject_to_val v = .ok ev ∧ val_to_pyobject po ev = .ok hv ∧
      pyEq hv v = true := by
  suffices H : ∀ (N : Nat) (u : PyVal), sizeOf u ≤ N → GoodPy u = true →
      ∃ ev hv, pyobject_to_val u = .ok ev ∧ val_to_pyobject po ev = .ok hv ∧
        pyEq hv u = true from H (sizeOf v) v le_rfl h
  intro N
  induction N with
  | zero =>
      intro u hu _
      exfalso
      cases u <;> simp at hu
  | succ N ihN =>
      intro u hu hg
      match u with
      | .none =>
          exact ⟨.null, .none, rfl, by simp [val_to_pyobject], by simp [pyEq, pyNumVal]⟩
      | .bool b =>
          exact ⟨.bool b, .bool b, rfl, by simp [val_to_pyobject], by simp [pyEq, pyNumVal]⟩
      | .str s =>
          exact ⟨.str s, .str s, rfl, by simp [val_to_pyobject], by simp [pyEq, pyNumVal]⟩
      | .float q => simp [GoodPy] at hg
      | .tuple xs => simp [GoodPy] at hg
      | .int n =>
          simp only [GoodPy, goodInt, Bool.and_eq_true, decide_eq_true_eq] at hg
          obtain ⟨⟨h0, h64⟩, hexact⟩ := hg
          refine ⟨.num ((u64ToF64 n.toNat : Nat) : ℚ),
            .float ((u64ToF64 n.toNat : Nat) : ℚ), ?_, by simp [val_to_pyobject], ?_⟩
          · simp only [pyobject_to_val]
            rw [if_pos ⟨h0, h64⟩]
          · simp only [pyEq, pyNumVal, decide_eq_true_eq]
            rw [hexact]
            exact_mod_cast congrArg (fun z : ℤ => (z : ℚ)) (Int.toNat_of_nonneg h0)
      | .list xs =>
          simp only [GoodPy] at hg
          have hel : ∀ x ∈ xs, GoodPy x = true →
              ∃ ev hv, pyobject_to_val x = .ok ev ∧ val_to_pyobject po ev = .ok hv ∧
                pyEq hv x = true := by
            intro x hx hgx
            refine ihN x ?_ hgx
            have h1 := List.sizeOf_lt_of_mem hx
            simp only [PyVal.list.sizeOf_spec] at hu
            omega
          obtain ⟨evs, hvs, g1, g2, g3⟩ := rt_list po xs hel hg
          refine ⟨.arr (evs.map Except.ok), .list hvs, ?_, ?_, ?_⟩
          · simp only [pyobject_to_val, g1, Except.map]
          · simp only [val_to_pyobject, g2, Except.map]
          · simp only [pyEq, pyNumVal]
            exact g3
      | .dict entries =>
          simp only [GoodPy, Bool.and_eq_true, decide_eq_true_eq] at hg
          obtain ⟨hnd, hge⟩ := hg
          have hel : ∀ kv ∈ entries, GoodPy kv.2 = true →
              ∃ ev hv, pyobject_to_val kv.2 = .ok ev ∧ val_to_pyobject po ev = .ok hv ∧
                pyEq hv kv.2 = true := by
            intro kv hkv hgkv
            refine ihN kv.2 ?_ hgkv
            have h1 := List.sizeOf_lt_of_mem hkv
            obtain ⟨k2, v2⟩ := kv
            simp only [PyVal.dict.sizeOf_spec] at hu
            simp only [Prod.mk.sizeOf_spec] at h1
            simp only
            omega
          obtain ⟨flds, hflds, hf2⟩ := rt_entries po entries hel hge
          obtain ⟨qs, hq1, hq2⟩ := rt_obj po entries flds hf2 hnd
          refine ⟨.obj flds, .dict qs, ?_, hq1, hq2⟩
          simp only [pyobject_to_val, hflds, Except.map]

theorem marshal_round_trip_witness :
    GoodPy (PyVal.dict [("b", PyVal.list [PyVal.int 2, PyVal.bool true]),
      ("a", PyVal.str "x"), ("c", PyVal.none)]) = true
  ∧ ∃ ev hv,
      pyobject_to_val (PyVal.dict [("b", PyVal.list [PyVal.int 2, PyVal.bool true]),
        ("a", PyVal.str "x"), ("c", PyVal.none)]) = .ok ev
    ∧ val_to_pyobject false ev = .ok hv
    ∧ pyEq hv (PyVal.dict [("b", PyVal.list [PyVal.int 2, PyVal.bool true]),
        ("a", PyVal.str "x"), ("c", PyVal.none)]) = true :=
  ⟨by decide, marshal_round_trip false
    (PyVal.dict [("b", PyVal.list [PyVal.int 2, PyVal.bool true]),
      ("a", PyVal.str "x"), ("c", PyVal.none)]) (by decide)⟩
